import Mathlib

/-!
Shallow embedding of the meeting-assistant application (`src/app.py`) for
verification of its specification.  Strings are modelled as `List Char`
where character-level reasoning is needed, and as `String` elsewhere;
Python/NumPy machine arithmetic is modelled over `Int`/`Rat` with explicit
wrapping where the source wraps.
-/

namespace MeetingAssistant

/-! ## Volume check (`check_audio_volume`, app.py lines 45-56)

The source decodes the frame bytes with `np.frombuffer(frames, dtype=np.int16)`
and computes `np.sqrt(np.mean(audio_data**2))`.  `audio_data**2` is evaluated
in NumPy's `int16`, so every squared sample is wrapped into `[-32768, 32767]`
(two's-complement wrap modulo 2^16); `np.mean` then accumulates exactly in a
wide float, and `np.sqrt` of a negative mean is NaN (no exception).
The waveform-container parse (`wave.open` / `readframes` / `frombuffer`) is an
external library call; its result is modelled as `Option (List Int)`:
`none` when any exception is raised inside the `try` block (the `except`
branch returns `-1`), `some samples` with the decoded signed 16-bit samples
otherwise (`[]` when `len(frames) == 0` or the decoded buffer is empty). -/

/-- Two's-complement wrap of an integer into the `int16` range, as NumPy's
`int16` arithmetic does on overflow. -/
def wrapInt16 (x : Int) : Int := (x + 32768) % 65536 - 32768

/-- One squared sample as the source computes it: `audio_data**2` stays in
`int16`, so the square is wrapped. -/
def sqWrapped (s : Int) : Int := wrapInt16 (s * s)

/-- `np.mean(audio_data**2)` of the source: exact mean (in a wide float,
modelled as `Rat`) of the int16-wrapped squares. -/
def meanWrappedSq (l : List Int) : Rat := ((l.map sqWrapped).sum : Int) / (l.length : Rat)

/-- The exact mean of squares `mean(sample^2)` over the mathematical sample
values, as the specification describes the RMS computation. -/
def exactMeanSq (l : List Int) : Rat := ((l.map (fun s => s * s)).sum : Int) / (l.length : Rat)

/-- Result of `check_audio_volume`: `fail` is the `-1` sentinel from the
`except` branch, `zero` the literal `0` for empty frames/buffer, `nan m` the
NaN produced by `np.sqrt` of a negative mean `m`, and `rms m` the value
`sqrt m` for a non-negative mean `m` of wrapped squares. -/
inductive VolOut : Type where
  | fail : VolOut
  | zero : VolOut
  | nan : Rat → VolOut
  | rms : Rat → VolOut
deriving DecidableEq

/-- `check_audio_volume` (app.py 45-56) on the modelled parse result.
`none`: the `try` block raised, return the sentinel (`-1`).
`some []`: `len(frames) == 0` or `len(audio_data) == 0`, return `0`.
Otherwise `np.sqrt(np.mean(audio_data**2))` with int16-wrapped squares. -/
def check_audio_volume (input : Option (List Int)) : VolOut :=
  match input with
  | none => .fail
  | some l =>
    if l.isEmpty then .zero
    else if meanWrappedSq l < 0 then .nan (meanWrappedSq l)
    else .rms (meanWrappedSq l)

/-- The real number returned by `check_audio_volume`, related to its `VolOut`:
`fail` returns exactly `-1`, `zero` exactly `0`, `nan` returns no real value
(IEEE NaN), and `rms m` returns the non-negative square root of `m`. -/
def returnsValue : VolOut → Real → Prop
  | .fail, r => r = -1
  | .zero, r => r = 0
  | .nan _, _ => False
  | .rms m, r => 0 ≤ r ∧ r * r = (m : Real)

/-! ## Analysis gate (app.py 141-152)

The caller computes `rms_val = check_audio_volume(audio_bytes)` and blocks
the analyze action exactly when `rms_val < 5` (note: a Python float
comparison, false for NaN, true for the `-1` sentinel). -/

/-- The gate `rms_val < 5` of app.py lines 143 and 151 on the modelled
return value: `-1 < 5` and `0 < 5` are true, `NaN < 5` is false, and
`sqrt m < 5` (for `0 ≤ m`) is `m < 25`. -/
def blocksAnalysis : VolOut → Bool
  | .fail => true
  | .zero => true
  | .nan _ => false
  | .rms m => decide (m < 25)

/-! ## Candidate-model analysis loop (app.py 163-188)

Each `model.generate_content(...)` / `response.text` call on a model name is
modelled by a function `call : String → CallResult`: `raises e` when the
attempt raises an exception with message `e` (caught by the inner `except`),
`returns t` when it yields text `t` (possibly empty). -/

/-- Outcome of one candidate attempt. -/
inductive CallResult : Type where
  | raises : String → CallResult
  | returns : String → CallResult
deriving DecidableEq

/-- Outcome of the whole analysis block: `ok t` when the loop broke with a
non-empty `full_result = t`; `failed e` when `if not full_result:` fired,
carrying the `last_error` value (possibly `None`, modelled `none`). -/
inductive AnalysisOutcome : Type where
  | ok : String → AnalysisOutcome
  | failed : Option String → AnalysisOutcome
deriving DecidableEq

/-- The `for model_name in candidate_models:` loop of app.py 176-184, with
state `(full_result, last_error)` (both start as `None`).  Inside the `try`:
`full_result = response.text; if full_result: break`; the `except` branch
does `last_error = e; continue`. -/
def loopGo (call : String → CallResult) :
    List String → Option String → Option String → Option String × Option String
  | [], fr, le => (fr, le)
  | m :: rest, fr, le =>
    match call m with
    | .raises e => loopGo call rest fr (some e)
    | .returns t => if t = "" then loopGo call rest (some t) le else (some t, le)

/-- The analysis block (app.py 163-188): run the loop over the candidate
list, then `if not full_result:` (true for `None` and for `""`) fail with
`last_error`, else succeed with the text. -/
def analysisOutcome (call : String → CallResult) (models : List String) : AnalysisOutcome :=
  match loopGo call models none none with
  | (some t, le) => if t = "" then .failed le else .ok t
  | (none, le) => .failed le

/-- Whether one attempt is a non-empty text response (the loop's break
condition). -/
def nonEmptyReturn : CallResult → Bool
  | .raises _ => false
  | .returns t => decide (t ≠ "")

/-- Whether one attempt raises. -/
def isRaise : CallResult → Bool
  | .raises _ => true
  | .returns _ => false

/-- One step of the `last_error` bookkeeping: an attempt that raises
overwrites `last_error`, an attempt that returns leaves it unchanged. -/
def errStep (call : String → CallResult) (acc : Option String) (m : String) : Option String :=
  match call m with
  | .raises e => some e
  | .returns _ => acc

/-- The value of `last_error` after traversing the whole list: the error of
the last raising candidate, `none` when no candidate raised. -/
def lastRaised (call : String → CallResult) (models : List String) : Option String :=
  models.foldl (errStep call) none

/-! ## Section extractor (`extract_section`, app.py 191-195)

`re.search(f"\\[{name}\\](.*?)(?=\\[|$)", text, re.DOTALL)` with the label
treated as a literal anchor (the three labels used by the program contain no
regex metacharacters).  The lazy group with lookahead `(?=\[|$)` captures
from just after the first occurrence of `[name]` up to (not including) the
next `[`, or to the end of the string; `$` may also stop the capture just
before a single trailing newline, a difference erased by the final
`.strip()`.  No match yields `""`. -/

/-- The literal pattern `[name]` the regex anchors on. -/
def bracketPat (section_name : List Char) : List Char := '[' :: (section_name ++ [']'])

/-- Index of the first occurrence of `p` as a contiguous sublist of `s`,
`none` when `p` occurs nowhere (for nonempty `p`). -/
def firstOcc (p : List Char) : List Char → Option Nat
  | [] => if p.isPrefixOf ([] : List Char) then some 0 else none
  | c :: rest =>
    if p.isPrefixOf (c :: rest) then some 0 else (firstOcc p rest).map (· + 1)

/-- Python `str.strip()`: drop leading and trailing whitespace. -/
def pyStrip (l : List Char) : List Char :=
  (((l.dropWhile Char.isWhitespace).reverse).dropWhile Char.isWhitespace).reverse

/-- `extract_section` (app.py 191-195): find the first occurrence of
`[section_name]`, capture lazily up to the next `[` or the end of the text,
and strip the capture; return `""` when there is no match. -/
def extract_section (text : List Char) (section_name : List Char) : List Char :=
  match firstOcc (bracketPat section_name) text with
  | none => []
  | some i =>
    pyStrip (((text.drop (i + (bracketPat section_name).length)).takeWhile (fun c => c ≠ '[')))

/-! ## Notification sender (`send_to_slack`, app.py 67-99)

The channel normalization (lines 71-72) and the message assembly
(lines 75-91) are pure string manipulation; the HTTP POST itself is an
external collaborator and is not modelled.  `datetime.now().strftime(...)`
is modelled as an arbitrary timestamp string argument. -/

/-- Channel normalization of app.py 71-72:
`if not channel.startswith("#") and not channel.startswith("C"):
channel = f"#\x7bchannel\x7d"`. -/
def normalizeChannel (channel : List Char) : List Char :=
  if ¬ ("#".data.isPrefixOf channel) ∧ ¬ ("C".data.isPrefixOf channel) then
    '#' :: channel
  else channel

/-- The `summary_data` dict: the three extracted sections (always set
together by the caller, app.py 236-240). -/
structure SummaryData : Type where
  three_line : List Char
  todo : List Char
  detailed : List Char

/-- Message assembly of app.py 75-91, transcribed append by append; each
Python `if field:` tests string truthiness, i.e. non-emptiness. -/
def buildMessage (now attendants context : List Char) (sd : SummaryData) : List Char :=
  let message := "*🎙️ 씨에스엠17 회의 기록 완료 (".data ++ now ++ ")*\n\n".data
  let message := if attendants ≠ [] then
    message ++ "*👥 참여자*: ".data ++ attendants ++ "\n".data else message
  let message := if context ≠ [] then
    message ++ "*💡 회의 목적 및 배경*: ".data ++ context ++ "\n".data else message
  let message := message ++ "\n".data
  let message := if sd.three_line ≠ [] then
    message ++ "*✨ 3줄 요약*\n".data ++ sd.three_line ++ "\n\n".data else message
  let message := if sd.todo ≠ [] then
    message ++ "*⚡ 할 일 (To-Do)*\n".data ++ sd.todo ++ "\n\n".data else message
  let message := if sd.detailed ≠ [] then
    message ++ "*📌 상세 요약*\n".data ++ sd.detailed ++ "\n\n".data else message
  message

/-! Spec-side decomposition of the assembled message into its six parts, in
the fixed order the specification states. -/

/-- Header with timestamp. -/
def headerPart (now : List Char) : List Char :=
  "*🎙️ 씨에스엠17 회의 기록 완료 (".data ++ now ++ ")*\n\n".data

/-- Attendee section, omitted entirely when empty. -/
def attendeesPart (a : List Char) : List Char :=
  if a ≠ [] then "*👥 참여자*: ".data ++ a ++ "\n".data else []

/-- Context section, omitted entirely when empty. -/
def contextPart (c : List Char) : List Char :=
  if c ≠ [] then "*💡 회의 목적 및 배경*: ".data ++ c ++ "\n".data else []

/-- Brief-summary section, omitted entirely when empty. -/
def threeLinePart (t : List Char) : List Char :=
  if t ≠ [] then "*✨ 3줄 요약*\n".data ++ t ++ "\n\n".data else []

/-- Action-item section, omitted entirely when empty. -/
def todoPart (t : List Char) : List Char :=
  if t ≠ [] then "*⚡ 할 일 (To-Do)*\n".data ++ t ++ "\n\n".data else []

/-- Detailed-summary section, omitted entirely when empty. -/
def detailedPart (t : List Char) : List Char :=
  if t ≠ [] then "*📌 상세 요약*\n".data ++ t ++ "\n\n".data else []

/-- The detailed-summary heading string. -/
def detailedHeading : List Char := "*📌 상세 요약*".data

/-! ## Supporting lemmas -/

/-- The `Bool` gate agrees with the Python comparison `rms_val < 5` on every
actually returned real value. -/
lemma blocksAnalysis_returnsValue (o : VolOut) (r : Real) (h : returnsValue o r) :
    blocksAnalysis o = true ↔ r < 5 := by
  cases o with
  | fail =>
    simp only [returnsValue] at h
    subst h
    simp only [blocksAnalysis, true_iff]
    norm_num
  | zero =>
    simp only [returnsValue] at h
    subst h
    simp only [blocksAnalysis, true_iff]
    norm_num
  | nan m => exact absurd h not_false
  | rms m =>
    obtain ⟨hr, hrr⟩ := h
    simp only [blocksAnalysis, decide_eq_true_eq]
    have h5 : (0 : Real) ≤ 5 := by norm_num
    constructor
    · intro hm
      have hmr : (m : Real) < 25 := by exact_mod_cast hm
      nlinarith
    · intro hlt
      have : (m : Real) < 25 := by nlinarith
      exact_mod_cast this

/-- A raising attempt is not a non-empty response. -/
lemma nonEmptyReturn_of_isRaise {r : CallResult} (h : isRaise r = true) :
    nonEmptyReturn r = false := by
  cases r with
  | raises e => rfl
  | returns t => simp [isRaise] at h

/-- Traversing candidates none of which yields a non-empty response leaves
`full_result` falsy (`None` or `""`) and folds the error bookkeeping over the
whole list. -/
lemma loopGo_all_falsy (call : String → CallResult) :
    ∀ (ms : List String) (fr le : Option String),
      (∀ x ∈ ms, nonEmptyReturn (call x) = false) →
      (fr = none ∨ fr = some "") →
      ∃ fr', loopGo call ms fr le = (fr', ms.foldl (errStep call) le) ∧
        (fr' = none ∨ fr' = some "") := by
  intro ms
  induction ms with
  | nil => exact fun fr le _ hfr => ⟨fr, rfl, hfr⟩
  | cons m rest ih =>
    intro fr le h hfr
    have hm := h m (by simp)
    have hrest : ∀ x ∈ rest, nonEmptyReturn (call x) = false :=
      fun x hx => h x (by simp [hx])
    cases hc : call m with
    | raises e =>
      simpa [loopGo, hc, List.foldl_cons, errStep] using ih fr (some e) hrest hfr
    | returns t =>
      have ht : t = "" := by simpa [nonEmptyReturn, hc] using hm
      subst ht
      simpa [loopGo, hc, List.foldl_cons, errStep] using
        ih (some "") le hrest (Or.inr rfl)

/-- If no candidate before `m` yields a non-empty response and `m` returns
non-empty text `t`, the loop breaks at `m` with `full_result = t` and
`last_error` folded over the earlier candidates only. -/
lemma loopGo_breaks (call : String → CallResult) :
    ∀ (pre : List String) (m : String) (post : List String) (t : String)
      (fr le : Option String),
      (∀ x ∈ pre, nonEmptyReturn (call x) = false) →
      call m = .returns t → t ≠ "" →
      loopGo call (pre ++ m :: post) fr le = (some t, pre.foldl (errStep call) le) := by
  intro pre
  induction pre with
  | nil =>
    intro m post t fr le _ hm ht
    simp [loopGo, hm, ht]
  | cons p pre' ih =>
    intro m post t fr le h hm ht
    have hp := h p (by simp)
    have hpre' : ∀ x ∈ pre', nonEmptyReturn (call x) = false :=
      fun x hx => h x (by simp [hx])
    cases hc : call p with
    | raises e =>
      simpa [loopGo, hc, List.foldl_cons, errStep] using
        ih m post t fr (some e) hpre' hm ht
    | returns u =>
      have hu : u = "" := by simpa [nonEmptyReturn, hc] using hp
      subst hu
      simpa [loopGo, hc, List.foldl_cons, errStep] using
        ih m post t (some "") le hpre' hm ht

/-- Exhausting the whole candidate list without a non-empty response fails
with the folded `last_error`. -/
lemma analysisOutcome_exhausted (call : String → CallResult) (ms : List String)
    (h : ∀ x ∈ ms, nonEmptyReturn (call x) = false) :
    analysisOutcome call ms = .failed (lastRaised call ms) := by
  obtain ⟨fr', heq, hfr'⟩ := loopGo_all_falsy call ms none none h (Or.inl rfl)
  rcases hfr' with h1 | h1 <;>
    simp [analysisOutcome, heq, h1, lastRaised]

/-- Folding the error bookkeeping over candidates that all return text
leaves `last_error` unchanged. -/
lemma foldl_errStep_no_raise (call : String → CallResult) :
    ∀ (ms : List String) (le : Option String),
      (∀ x ∈ ms, isRaise (call x) = false) →
      ms.foldl (errStep call) le = le := by
  intro ms
  induction ms with
  | nil => intro le _; rfl
  | cons m rest ih =>
    intro le h
    have hm := h m (by simp)
    cases hc : call m with
    | raises e => simp [isRaise, hc] at hm
    | returns t =>
      simpa [List.foldl_cons, errStep, hc] using
        ih le (fun x hx => h x (by simp [hx]))

/-- `firstOcc` returns `none` when the pattern occurs nowhere. -/
lemma firstOcc_none (p : List Char) :
    ∀ s : List Char, ¬ p <:+: s → firstOcc p s = none := by
  intro s
  induction s with
  | nil =>
    intro h
    have h1 : p.isPrefixOf ([] : List Char) = false := by
      rw [Bool.eq_false_iff]
      intro hb
      exact h (List.isPrefixOf_iff_prefix.mp hb).isInfix
    simp [firstOcc, h1]
  | cons c rest ih =>
    intro h
    have h1 : p.isPrefixOf (c :: rest) = false := by
      rw [Bool.eq_false_iff]
      intro hb
      exact h (List.isPrefixOf_iff_prefix.mp hb).isInfix
    have h2 : ¬ p <:+: rest := fun hi => h (List.infix_cons_iff.mpr (Or.inr hi))
    simp [firstOcc, h1, ih h2]

/-- `firstOcc` returns the index of the first occurrence: if `p` is a prefix
at index `n` and at no earlier index, the result is `some n`. -/
lemma firstOcc_some (p : List Char) :
    ∀ (s : List Char) (n : Nat), p <+: s.drop n → (∀ i < n, ¬ p <+: s.drop i) →
      firstOcc p s = some n := by
  intro s
  induction s with
  | nil =>
    intro n hn hb
    have hp : p = [] := by simpa using hn
    subst hp
    have hn0 : n = 0 := by
      by_contra hne
      exact hb 0 (Nat.pos_of_ne_zero hne) (by simp)
    subst hn0
    simp [firstOcc, List.isPrefixOf]
  | cons c rest ih =>
    intro n hn hb
    cases n with
    | zero =>
      have h1 : p.isPrefixOf (c :: rest) = true :=
        List.isPrefixOf_iff_prefix.mpr (by simpa using hn)
      simp [firstOcc, h1]
    | succ n' =>
      have h0 : ¬ p <+: (c :: rest) := by simpa using hb 0 (Nat.succ_pos _)
      have h1 : p.isPrefixOf (c :: rest) = false := by
        rw [Bool.eq_false_iff]
        intro hbb
        exact h0 (List.isPrefixOf_iff_prefix.mp hbb)
      have hrec := ih n' (by simpa using hn) (fun i hi => by
        have := hb (i + 1) (Nat.succ_lt_succ hi)
        simpa using this)
      simp [firstOcc, h1, hrec]

/-- The lazy capture stops exactly at an opening bracket terminating the
body. -/
lemma takeWhile_append_bracket :
    ∀ body r : List Char, '[' ∉ body →
      (body ++ '[' :: r).takeWhile (fun c => c ≠ '[') = body := by
  intro body
  induction body with
  | nil => intro r _; simp
  | cons a b ih =>
    intro r h
    have ha : a ≠ '[' := fun he => h (by simp [he])
    have hd : decide (a ≠ '[') = true := by simp [ha]
    rw [List.cons_append, List.takeWhile_cons, if_pos hd,
      ih r (fun hm => h (List.mem_cons_of_mem a hm))]

/-- The lazy capture takes a whole bracket-free body. -/
lemma takeWhile_of_no_bracket :
    ∀ body : List Char, '[' ∉ body →
      body.takeWhile (fun c => c ≠ '[') = body := by
  intro body
  induction body with
  | nil => intro _; rfl
  | cons a b ih =>
    intro h
    have ha : a ≠ '[' := fun he => h (by simp [he])
    have hd : decide (a ≠ '[') = true := by simp [ha]
    rw [List.takeWhile_cons, if_pos hd, ih (fun hm => h (List.mem_cons_of_mem a hm))]

/-- Stripping never introduces characters. -/
lemma mem_of_mem_pyStrip {a : Char} {l : List Char} (h : a ∈ pyStrip l) : a ∈ l := by
  simp only [pyStrip, List.mem_reverse] at h
  have h2 := (List.dropWhile_sublist _).subset h
  rw [List.mem_reverse] at h2
  exact (List.dropWhile_sublist _).subset h2

/-- A character absent from three lists is absent from their concatenation. -/
lemma not_mem_append3 {x : Char} {l1 l2 l3 : List Char}
    (h1 : x ∉ l1) (h2 : x ∉ l2) (h3 : x ∉ l3) : x ∉ l1 ++ l2 ++ l3 := by
  simp only [List.mem_append, not_or]
  exact ⟨⟨h1, h2⟩, h3⟩

/-- The name-channel sigil is a prefix of any string starting with `#`. -/
lemma hash_isPrefixOf (ch : List Char) :
    "#".data.isPrefixOf ('#' :: ch) = true := by
  rw [List.isPrefixOf_iff_prefix]
  exact List.cons_prefix_cons.mpr ⟨rfl, List.nil_prefix⟩

set_option maxHeartbeats 1000000 in
/-- The assembled message is exactly the six parts concatenated in the fixed
order. -/
lemma buildMessage_eq_parts (now a c : List Char) (sd : SummaryData) :
    buildMessage now a c sd =
      headerPart now ++ attendeesPart a ++ contextPart c ++ "\n".data ++
        threeLinePart sd.three_line ++ todoPart sd.todo ++ detailedPart sd.detailed := by
  simp only [buildMessage, headerPart, attendeesPart, contextPart, threeLinePart,
    todoPart, detailedPart]
  split_ifs <;> simp [List.append_assoc]

/-! ## Claim theorems -/

/-- Claim C1 (code bug): on the one-sample buffer `[256]` the code squares in
`int16`, so `256 * 256 = 65536` wraps to `0`; `check_audio_volume` therefore
returns the value `0` (namely `sqrt 0`), while the specified RMS
`sqrt(mean(sample^2)) = sqrt 65536 = 256`: the returned value does not
satisfy `r * r = mean(sample^2)`.  This refutes the claim that the return
value equals the RMS computed over the exact integer sample values. -/
theorem check_audio_volume_int16_overflow_bug :
    check_audio_volume (some [256]) = VolOut.rms 0 ∧
    returnsValue (check_audio_volume (some [256])) 0 ∧
    exactMeanSq [256] = 65536 ∧
    ¬ (0 : Real) * 0 = ((exactMeanSq [256] : Rat) : Real) := by
  have hm : meanWrappedSq [256] = 0 := by
    norm_num [meanWrappedSq, sqWrapped, wrapInt16]
  have h : check_audio_volume (some [256]) = VolOut.rms 0 := by
    simp [check_audio_volume, hm]
  have he : exactMeanSq [256] = 65536 := by
    norm_num [exactMeanSq]
  refine ⟨h, ?_, he, ?_⟩
  · rw [h]
    exact ⟨le_refl 0, by norm_num⟩
  · rw [he]
    norm_num

/-- Claim C2 counterexample: a decode failure (sentinel `-1`) does block the
analyze action: the gate `rms_val < 5` of app.py 143/151 is true at `-1`,
contradicting the claim that analysis is not blocked by the sentinel alone. -/
theorem gate_blocks_on_sentinel :
    returnsValue (check_audio_volume none) (-1) ∧
    blocksAnalysis (check_audio_volume none) = true :=
  ⟨by simp [check_audio_volume, returnsValue], by decide⟩

/-- Claim C2 (amended): the analyze action is blocked exactly when the value
returned by `check_audio_volume` compares `< 5` — which holds for the `-1`
decode-failure sentinel and for the `0` of an empty buffer, holds for a
successfully decoded recording iff its computed mean of (int16-wrapped)
squared samples is `< 25` (i.e. RMS `< 5`), and fails for a NaN result. -/
theorem analysis_gate_characterization :
    (∀ (o : VolOut) (r : Real), returnsValue o r → (blocksAnalysis o = true ↔ r < 5)) ∧
    blocksAnalysis VolOut.fail = true ∧
    blocksAnalysis VolOut.zero = true ∧
    (∀ m : Rat, blocksAnalysis (VolOut.rms m) = true ↔ m < 25) ∧
    (∀ m : Rat, blocksAnalysis (VolOut.nan m) = false) := by
  refine ⟨blocksAnalysis_returnsValue, rfl, rfl, ?_, fun _ => rfl⟩
  intro m
  simp [blocksAnalysis]

/-- Witness for C2's amended theorem: instantiating the quantified part at
the decode-failure output and the value `-1` it returns. -/
theorem analysis_gate_characterization_witness :
    returnsValue VolOut.fail (-1) ∧
    (blocksAnalysis VolOut.fail = true ↔ (-1 : Real) < 5) :=
  ⟨by simp [returnsValue],
    analysis_gate_characterization.1 VolOut.fail (-1) (by simp [returnsValue])⟩

/-- Claim C7: `check_audio_volume` is a total function of the parse result
(it never raises: every exception inside the `try` is caught); a parse
failure returns exactly `-1` and an empty frame/sample buffer returns
exactly `0`. -/
theorem check_audio_volume_sentinels :
    check_audio_volume none = VolOut.fail ∧
    returnsValue (check_audio_volume none) (-1) ∧
    check_audio_volume (some []) = VolOut.zero ∧
    returnsValue (check_audio_volume (some [])) 0 :=
  ⟨rfl, by simp [check_audio_volume, returnsValue], rfl,
    by simp [check_audio_volume, returnsValue]⟩

/-- Claim C3: the analysis loop returns the text of the first candidate
yielding a non-empty response, and the outcome is unchanged under any
behaviour of the later candidates (they are never tried); when every
candidate is exhausted without a non-empty response the operation fails with
the last recorded error — in particular, when all candidates raise, with the
error of the last candidate attempted. -/
theorem candidate_fallback_spec :
    (∀ (call call2 : String → CallResult) (pre : List String) (m : String)
        (post : List String) (t : String),
        (∀ x ∈ pre, nonEmptyReturn (call x) = false) →
        call m = .returns t → t ≠ "" →
        (∀ x ∈ pre, call2 x = call x) → call2 m = call m →
        analysisOutcome call2 (pre ++ m :: post) = .ok t) ∧
    (∀ (call : String → CallResult) (ms : List String),
        (∀ x ∈ ms, nonEmptyReturn (call x) = false) →
        analysisOutcome call ms = .failed (lastRaised call ms)) ∧
    (∀ (call : String → CallResult) (ms : List String) (m e : String),
        (∀ x ∈ ms ++ [m], isRaise (call x) = true) →
        call m = .raises e →
        analysisOutcome call (ms ++ [m]) = .failed (some e)) := by
  refine ⟨?_, analysisOutcome_exhausted, ?_⟩
  · intro call call2 pre m post t hpre hm ht hagree hm2
    have hpre2 : ∀ x ∈ pre, nonEmptyReturn (call2 x) = false :=
      fun x hx => by rw [hagree x hx]; exact hpre x hx
    have hm2' : call2 m = .returns t := by rw [hm2, hm]
    have := loopGo_breaks call2 pre m post t none none hpre2 hm2' ht
    simp [analysisOutcome, this, ht]
  · intro call ms m e hall hm
    have hne : ∀ x ∈ ms ++ [m], nonEmptyReturn (call x) = false :=
      fun x hx => nonEmptyReturn_of_isRaise (hall x hx)
    have h := analysisOutcome_exhausted call (ms ++ [m]) hne
    rw [h, lastRaised, List.foldl_append]
    simp [errStep, hm]

/-- Witness for C3: with `M1` raising `e1` and `M2` raising `e2` the outcome
carries `e2`; with `M1` raising and `M2` returning `"ok"` the outcome is
`ok "ok"`; with a single candidate returning `""` the outcome is a failure
carrying the (empty) fold of recorded errors. -/
theorem candidate_fallback_spec_witness :
    analysisOutcome (fun n => if n = "M1" then .raises "e1" else .raises "e2")
        (["M1"] ++ ["M2"]) = .failed (some "e2") ∧
    analysisOutcome (fun n => if n = "M1" then .raises "e1" else .returns "ok")
        (["M1"] ++ "M2" :: []) = .ok "ok" ∧
    analysisOutcome (fun _ => CallResult.returns "") ["M1"] = .failed none := by
  refine ⟨?_, ?_, ?_⟩
  · exact candidate_fallback_spec.2.2
      (fun n => if n = "M1" then .raises "e1" else .raises "e2")
      ["M1"] "M2" "e2" (by decide) (by decide)
  · exact candidate_fallback_spec.1
      (fun n => if n = "M1" then .raises "e1" else .returns "ok")
      (fun n => if n = "M1" then .raises "e1" else .returns "ok")
      ["M1"] "M2" [] "ok" (by decide) (by decide) (by decide)
      (fun x _ => rfl) rfl
  · have h := candidate_fallback_spec.2.1 (fun _ => CallResult.returns "")
      ["M1"] (by decide)
    simpa [lastRaised, errStep] using h

/-- Claim C10: a candidate that returns empty text without raising advances
the loop but records no error: if every candidate returns empty text the
analysis fails carrying `none` (no recorded error); and an empty-text
candidate after a raising one leaves the earlier, stale error as the
surfaced `last_error`. -/
theorem empty_response_records_no_error :
    (∀ (call : String → CallResult) (ms : List String),
        (∀ x ∈ ms, call x = .returns "") →
        analysisOutcome call ms = .failed none) ∧
    (∀ (call : String → CallResult) (m1 m2 e : String),
        call m1 = .raises e → call m2 = .returns "" →
        analysisOutcome call [m1, m2] = .failed (some e)) := by
  constructor
  · intro call ms h
    have hne : ∀ x ∈ ms, nonEmptyReturn (call x) = false := by
      intro x hx
      simp [nonEmptyReturn, h x hx]
    have hnr : ∀ x ∈ ms, isRaise (call x) = false := by
      intro x hx
      simp [isRaise, h x hx]
    rw [analysisOutcome_exhausted call ms hne, lastRaised,
      foldl_errStep_no_raise call ms none hnr]
  · intro call m1 m2 e h1 h2
    simp [analysisOutcome, loopGo, h1, h2]

/-- Witness for C10: two candidates both returning `""` fail with no
recorded error; a raising candidate followed by an empty-text one fails with
the stale error `boom`. -/
theorem empty_response_records_no_error_witness :
    analysisOutcome (fun _ => CallResult.returns "") ["M1", "M2"] = .failed none ∧
    analysisOutcome (fun n => if n = "M1" then .raises "boom" else .returns "")
        ["M1", "M2"] = .failed (some "boom") :=
  ⟨empty_response_records_no_error.1 (fun _ => CallResult.returns "")
      ["M1", "M2"] (by decide),
    empty_response_records_no_error.2
      (fun n => if n = "M1" then .raises "boom" else .returns "")
      "M1" "M2" "boom" (by decide) (by decide)⟩

/-- Claim C4: `extract_section` returns the empty string when the bracketed
label occurs nowhere in the text; and when the text decomposes as
`pre ++ [label] ++ body ++ rest` with the occurrence at `pre` being the
first one, `body` containing no opening bracket and `rest` either empty or
starting with the next bracket, the result is `body` with surrounding
whitespace stripped — the text between the first `[label]` and the next
`[` or the end of the string, trimmed. -/
theorem extract_section_spec :
    (∀ text label : List Char,
        ¬ bracketPat label <:+: text → extract_section text label = []) ∧
    (∀ pre label body rest : List Char,
        (∀ i < pre.length,
          ¬ bracketPat label <+: (pre ++ bracketPat label ++ body ++ rest).drop i) →
        '[' ∉ body →
        (rest = [] ∨ ∃ r, rest = '[' :: r) →
        extract_section (pre ++ bracketPat label ++ body ++ rest) label =
          pyStrip body) := by
  constructor
  · intro text label h
    simp [extract_section, firstOcc_none _ _ h]
  · intro pre label body rest hfirst hbody hrest
    have hassoc : pre ++ bracketPat label ++ body ++ rest =
        pre ++ (bracketPat label ++ (body ++ rest)) := by
      simp [List.append_assoc]
    have hpre : bracketPat label <+:
        (pre ++ bracketPat label ++ body ++ rest).drop pre.length := by
      rw [hassoc, List.drop_left]
      exact ⟨body ++ rest, rfl⟩
    have hocc := firstOcc_some (bracketPat label) _ pre.length hpre hfirst
    have hdrop : (pre ++ bracketPat label ++ body ++ rest).drop
        (pre.length + (bracketPat label).length) = body ++ rest := by
      have : pre ++ bracketPat label ++ body ++ rest =
          (pre ++ bracketPat label) ++ (body ++ rest) := by
        simp [List.append_assoc]
      rw [this, List.drop_left' (by simp)]
    simp only [extract_section, hocc, hdrop]
    rcases hrest with h | ⟨r, hr⟩
    · subst h
      rw [List.append_nil, takeWhile_of_no_bracket body hbody]
    · subst hr
      rw [takeWhile_append_bracket body r hbody]

/-- Witness for C4: in `x[A]b[B]c` extracting label `A` yields `b` (the text
strictly between `[A]` and `[B]`, trimmed), and extracting the absent label
`Z` yields the empty string. -/
theorem extract_section_spec_witness :
    extract_section "x[A] b [B]c".data "A".data = "b".data ∧
    extract_section "x[A] b [B]c".data "Z".data = [] := by
  constructor
  · have h := extract_section_spec.2 "x".data "A".data " b ".data "[B]c".data
      (by decide) (by decide) (Or.inr ⟨"B]c".data, by decide⟩)
    have he : "x".data ++ bracketPat "A".data ++ " b ".data ++ "[B]c".data =
        "x[A] b [B]c".data := by decide
    rw [he] at h
    rw [h]
    decide
  · exact extract_section_spec.1 "x[A] b [B]c".data "Z".data (by decide)

/-- Claim C8: the result of `extract_section` never contains an opening
bracket: the capture always stops before any `[`. -/
theorem extract_section_no_bracket (text label : List Char) :
    '[' ∉ extract_section text label := by
  unfold extract_section
  cases h : firstOcc (bracketPat label) text with
  | none => simp
  | some i =>
    intro hmem
    have h1 : '[' ∈ (text.drop (i + (bracketPat label).length)).takeWhile
        (fun c => c ≠ '[') := mem_of_mem_pyStrip hmem
    have h2 := List.mem_takeWhile_imp h1
    simp at h2

/-- Claim C5: the assembled Slack message is the six parts in the fixed
order header, attendees, context, brief summary, action items, detailed
summary; every part whose field is empty is omitted entirely; and with an
empty detailed field the message contains no detailed-summary heading
(provided no other user-supplied field injects the heading's `📌` marker). -/
theorem send_message_assembly :
    (∀ (now a c : List Char) (sd : SummaryData),
        buildMessage now a c sd =
          headerPart now ++ attendeesPart a ++ contextPart c ++ "\n".data ++
            threeLinePart sd.three_line ++ todoPart sd.todo ++
            detailedPart sd.detailed) ∧
    (attendeesPart [] = [] ∧ contextPart [] = [] ∧ threeLinePart [] = [] ∧
      todoPart [] = [] ∧ detailedPart [] = []) ∧
    (∀ (now a c : List Char) (sd : SummaryData),
        sd.detailed = [] →
        '📌' ∉ now → '📌' ∉ a → '📌' ∉ c →
        '📌' ∉ sd.three_line → '📌' ∉ sd.todo →
        ¬ detailedHeading <:+: buildMessage now a c sd) := by
  refine ⟨buildMessage_eq_parts, ⟨rfl, rfl, rfl, rfl, rfl⟩, ?_⟩
  intro now a c sd hdet hn ha hc h3 ht hi
  have hpin : '📌' ∈ detailedHeading := by decide
  have hm : '📌' ∈ buildMessage now a c sd := hi.sublist.subset hpin
  rw [buildMessage_eq_parts] at hm
  have k1 : '📌' ∉ headerPart now := not_mem_append3 (by decide) hn (by decide)
  have k2 : '📌' ∉ attendeesPart a := by
    unfold attendeesPart
    split_ifs with h
    · exact not_mem_append3 (by decide) ha (by decide)
    · simp
  have k3 : '📌' ∉ contextPart c := by
    unfold contextPart
    split_ifs with h
    · exact not_mem_append3 (by decide) hc (by decide)
    · simp
  have k4 : '📌' ∉ threeLinePart sd.three_line := by
    unfold threeLinePart
    split_ifs with h
    · exact not_mem_append3 (by decide) h3 (by decide)
    · simp
  have k5 : '📌' ∉ todoPart sd.todo := by
    unfold todoPart
    split_ifs with h
    · exact not_mem_append3 (by decide) ht (by decide)
    · simp
  have k6 : '📌' ∉ detailedPart sd.detailed := by
    rw [hdet]
    simp [detailedPart]
  have k7 : '📌' ∉ ("\n".data : List Char) := by decide
  simp only [List.mem_append, not_or] at hm ⊢
  rcases hm with ((((((m1 | m2) | m3) | m4) | m5) | m6) | m7)
  · exact k1 m1
  · exact k2 m2
  · exact k3 m3
  · exact k7 m4
  · exact k4 m5
  · exact k5 m6
  · exact k6 m7

/-- Witness for C5: with a concrete empty detailed field the message
contains no detailed-summary heading. -/
theorem send_message_assembly_witness :
    (⟨"foo".data, "bar".data, []⟩ : SummaryData).detailed = [] ∧
    ¬ detailedHeading <:+:
      buildMessage "2025-01-01 12:00".data "Kim".data []
        ⟨"foo".data, "bar".data, []⟩ :=
  ⟨rfl, send_message_assembly.2.2 "2025-01-01 12:00".data "Kim".data []
    ⟨"foo".data, "bar".data, []⟩ rfl (by decide) (by decide) (by decide)
    (by decide) (by decide)⟩

/-- Claim C6: channel normalization is idempotent, `"general"` becomes
`"#general"`, `"#general"` stays `"#general"`, and `"C0123456"` stays
`"C0123456"`. -/
theorem channel_normalization_idempotent :
    (∀ ch : List Char, normalizeChannel (normalizeChannel ch) = normalizeChannel ch) ∧
    normalizeChannel "general".data = "#general".data ∧
    normalizeChannel "#general".data = "#general".data ∧
    normalizeChannel "C0123456".data = "C0123456".data := by
  refine ⟨?_, by decide, by decide, by decide⟩
  intro ch
  by_cases h : ¬ ("#".data.isPrefixOf ch) ∧ ¬ ("C".data.isPrefixOf ch)
  · have hinner : normalizeChannel ch = '#' :: ch := by
      rw [normalizeChannel, if_pos h]
    rw [hinner, normalizeChannel, if_neg]
    intro hcontra
    exact hcontra.1 (hash_isPrefixOf ch)
  · have hinner : normalizeChannel ch = ch := by
      rw [normalizeChannel, if_neg h]
    rw [hinner, hinner]

/-- Claim C9: channel normalization inspects only the first character: any
channel starting with `C` (including a human-readable name like `"Cool"`)
or with `#` is passed through unchanged, and any other channel gets `#`
prepended regardless of the remaining characters. -/
theorem channel_normalization_first_char :
    (∀ rest : List Char, normalizeChannel ('C' :: rest) = 'C' :: rest) ∧
    (∀ rest : List Char, normalizeChannel ('#' :: rest) = '#' :: rest) ∧
    (∀ (c0 : Char) (rest : List Char), c0 ≠ '#' → c0 ≠ 'C' →
        normalizeChannel (c0 :: rest) = '#' :: c0 :: rest) ∧
    normalizeChannel "Cool".data = "Cool".data := by
  refine ⟨?_, ?_, ?_, by decide⟩
  · intro rest
    rw [normalizeChannel, if_neg]
    intro hcontra
    apply hcontra.2
    rw [List.isPrefixOf_iff_prefix]
    exact List.cons_prefix_cons.mpr ⟨rfl, List.nil_prefix⟩
  · intro rest
    rw [normalizeChannel, if_neg]
    intro hcontra
    exact hcontra.1 (hash_isPrefixOf rest)
  · intro c0 rest h1 h2
    rw [normalizeChannel, if_pos]
    constructor
    · intro hb
      have := List.cons_prefix_cons.mp (List.isPrefixOf_iff_prefix.mp hb)
      exact h1 this.1.symm
    · intro hb
      have := List.cons_prefix_cons.mp (List.isPrefixOf_iff_prefix.mp hb)
      exact h2 this.1.symm

/-- Witness for C9: the non-sigil channel `"general"` gets `#` prepended. -/
theorem channel_normalization_first_char_witness :
    ('g' : Char) ≠ '#' ∧ ('g' : Char) ≠ 'C' ∧
    normalizeChannel ('g' :: "eneral".data) = '#' :: 'g' :: "eneral".data :=
  ⟨by decide, by decide,
    channel_normalization_first_char.2.2.1 'g' "eneral".data (by decide) (by decide)⟩

end MeetingAssistant
